import Mathlib

/-!
Verification development for the DoD-vs-repository filtered-reduction benchmark.

The repository computes "sum of balances of active users whose balance meets a
threshold" in several ways:

* a scalar reducer (`SumActiveBalancesScalar`, identical bodies in
  src/bench-dod-avx2-double.cpp, src/bench-dod-znver2.cpp, and — under the name
  `SumActiveBalances` — src/bench-dod.cpp);
* an AVX2 kernel with double-precision (wide) accumulation
  (src/bench-dod-avx2-double.cpp, `SumActiveBalancesAvx2`);
* an AVX2 kernel with single-precision accumulation and a 16-element unroll
  (src/bench-dod-znver2.cpp, `SumActiveBalancesAvx2`);
* a capability dispatcher in each AVX binary (`SumActiveBalances`);
* a repository-style path (src/bench-repository.cpp) over a list of records.

Modelling conventions of this shallow embedding:

* Balances are modelled as exact rationals (`ℚ`).  Every claim about reducer
  results is stated modulo floating-point rounding tolerance ("in exact
  arithmetic the results are equal"), so all accumulation arithmetic — float or
  double in the C++ — is modelled exactly; the tolerance bound then holds with
  zero difference.  The one precision event the claims distinguish is the
  implicit `double → float` conversion at the return of the wide-accumulation
  binary's dispatcher (declared `float`, returning the kernel's `double`); it is
  modelled by `roundToFloat`, IEEE-754 binary32 round-to-nearest-even for
  values in the normal range.
* Activity flags are bytes, modelled as `ℕ` values (the C++ type is `uint8_t`;
  none of the kernels' arithmetic depends on an upper bound of 255).
* The SIMD registers are modelled lane-by-lane: `Vec4` models a `__m256d`
  (four double lanes), `Vec8` models a `__m256` (eight float lanes).  The
  per-lane combination of `_mm256_cvtepu8_epi32` / `_mm256_cvtepi32_ps` /
  `_mm256_min_ps` / `_mm256_cmp_ps` / `_mm256_and_ps` / `_mm256_mul_ps` is
  captured by `laneContrib` below.
* Arrays are borrowed pointers plus a count in the C++; here a view stores
  lists, indexed through `List.getD` with default 0, and loops run over `Count`
  exactly as the C++ loops do.
-/

/-- The structure-of-arrays view over users
(struct `UsersView` in the three DoD benchmark files). -/
structure UsersView where
  Ids : List ℤ
  Balances : List ℚ
  Active : List ℕ
  Count : ℕ

/-- `Balances[i]` as read by the kernels. -/
def UsersView.bal (v : UsersView) (i : ℕ) : ℚ :=
  v.Balances.getD i 0

/-- `Active[i]` as read by the kernels. -/
def UsersView.act (v : UsersView) (i : ℕ) : ℕ :=
  v.Active.getD i 0

/-- The scalar per-element factor
`(usersView.Active[i] && balanceValue >= thresholdBalance) ? 1.0f : 0.0f`. -/
def takeValue (t b : ℚ) (a : ℕ) : ℚ :=
  if a ≠ 0 ∧ t ≤ b then 1 else 0

/-- The scalar loop of `SumActiveBalancesScalar`: iteration `n` has already
processed indices `0, …, n-1`, accumulating `balanceValue * takeValue`. -/
def scalarLoop (v : UsersView) (t : ℚ) : ℕ → ℚ
  | 0 => 0
  | n + 1 => scalarLoop v t n + v.bal n * takeValue t (v.bal n) (v.act n)

/-- `SumActiveBalancesScalar` of src/bench-dod-avx2-double.cpp and
src/bench-dod-znver2.cpp; src/bench-dod.cpp's `SumActiveBalances` has the
identical body. -/
def SumActiveBalancesScalar (v : UsersView) (t : ℚ) : ℚ :=
  scalarLoop v t v.Count

/-- One activity byte widened to a float lane and clamped:
`_mm256_min_ps(_mm256_cvtepi32_ps(_mm256_cvtepu8_epi32 bytes), one)`. -/
def activeLane (a : ℕ) : ℚ :=
  min (a : ℚ) 1

/-- One lane of `_mm256_and_ps(cmpMask, activeM)`: the `_CMP_GE_OQ` comparison
produces an all-ones (respectively all-zeros) lane, whose bitwise AND with the
clamped activity value yields that value (respectively positive zero). -/
def laneTake (t b : ℚ) (a : ℕ) : ℚ :=
  if t ≤ b then activeLane a else 0

/-- One lane of `_mm256_mul_ps(b, take)`: the per-lane contribution. -/
def laneContrib (t b : ℚ) (a : ℕ) : ℚ :=
  b * laneTake t b a

/-- Four lanes of a `__m256d` register. -/
structure Vec4 where
  l0 : ℚ
  l1 : ℚ
  l2 : ℚ
  l3 : ℚ

/-- `_mm256_setzero_pd`. -/
def Vec4.zero : Vec4 :=
  ⟨0, 0, 0, 0⟩

/-- `_mm256_add_pd`, lane by lane. -/
def Vec4.add (x y : Vec4) : Vec4 :=
  ⟨x.l0 + y.l0, x.l1 + y.l1, x.l2 + y.l2, x.l3 + y.l3⟩

/-- Eight lanes of a `__m256` register. -/
structure Vec8 where
  l0 : ℚ
  l1 : ℚ
  l2 : ℚ
  l3 : ℚ
  l4 : ℚ
  l5 : ℚ
  l6 : ℚ
  l7 : ℚ

/-- `_mm256_setzero_ps`. -/
def Vec8.zero : Vec8 :=
  ⟨0, 0, 0, 0, 0, 0, 0, 0⟩

/-- `_mm256_add_ps`, lane by lane. -/
def Vec8.add (x y : Vec8) : Vec8 :=
  ⟨x.l0 + y.l0, x.l1 + y.l1, x.l2 + y.l2, x.l3 + y.l3,
   x.l4 + y.l4, x.l5 + y.l5, x.l6 + y.l6, x.l7 + y.l7⟩

/-- `_mm256_castps256_ps128`: the low four lanes. -/
def Vec8.low (x : Vec8) : Vec4 :=
  ⟨x.l0, x.l1, x.l2, x.l3⟩

/-- `_mm256_extractf128_ps(x, 1)`: the high four lanes. -/
def Vec8.high (x : Vec8) : Vec4 :=
  ⟨x.l4, x.l5, x.l6, x.l7⟩

/-- The eight-lane contribution vector computed from `balances[i..i+7]` and
`activeFlags[i..i+7]` by the loads, widen/clamp, compare, AND, and multiply of
either AVX2 kernel (`_mm256_cvtps_pd` on the halves is exact, so the same
vector serves both kernels). -/
def contribVec (v : UsersView) (t : ℚ) (i : ℕ) : Vec8 :=
  ⟨laneContrib t (v.bal i) (v.act i),
   laneContrib t (v.bal (i + 1)) (v.act (i + 1)),
   laneContrib t (v.bal (i + 2)) (v.act (i + 2)),
   laneContrib t (v.bal (i + 3)) (v.act (i + 3)),
   laneContrib t (v.bal (i + 4)) (v.act (i + 4)),
   laneContrib t (v.bal (i + 5)) (v.act (i + 5)),
   laneContrib t (v.bal (i + 6)) (v.act (i + 6)),
   laneContrib t (v.bal (i + 7)) (v.act (i + 7))⟩

/-- The scalar tail loop shared (textually) by both AVX2 kernels:
starting at index `i` with `r` elements left and accumulator `acc`, add
`balances[i]` whenever `activeFlags[i] && balances[i] >= minimumBalance`.
The wide-accumulation kernel runs it on a `double` accumulator, the
same-precision kernel on a `float` one; both are exact here. -/
def tailLoop (v : UsersView) (t : ℚ) : ℕ → ℕ → ℚ → ℚ
  | _, 0, acc => acc
  | i, r + 1, acc =>
      tailLoop v t (i + 1) r
        (if v.act i ≠ 0 ∧ t ≤ v.bal i then acc + v.bal i else acc)

/-- Fuel-driven floor base-2 logarithm of a natural number (the fuel makes the
recursion structural, hence kernel-reducible; called with `fuel = n`, which
always suffices). -/
def natLog2F : ℕ → ℕ → ℕ
  | 0, _ => 0
  | fuel + 1, n => if n ≤ 1 then 0 else natLog2F fuel (n / 2) + 1

/-- Fuel-driven ceiling base-2 logarithm of a natural number. -/
def natClog2F : ℕ → ℕ → ℕ
  | 0, _ => 0
  | fuel + 1, n => if n ≤ 1 then 0 else natClog2F fuel ((n + 1) / 2) + 1

/-- Floor base-2 logarithm of a positive rational (`⌊log₂ q⌋`). -/
def floorLog2 (q : ℚ) : ℤ :=
  if 1 ≤ q then natLog2F ⌊q⌋.toNat ⌊q⌋.toNat
  else -(natClog2F ⌈q⁻¹⌉.toNat ⌈q⁻¹⌉.toNat : ℤ)

/-- Round-to-nearest integer, ties to even — the IEEE-754 default rounding
direction restricted to a scaled significand. -/
def rne (x : ℚ) : ℤ :=
  if x - ⌊x⌋ < 1 / 2 then ⌊x⌋
  else if 1 / 2 < x - ⌊x⌋ then ⌊x⌋ + 1
  else if ⌊x⌋ % 2 = 0 then ⌊x⌋ else ⌊x⌋ + 1

/-- The implicit `static_cast<float>` a C++ `return` performs when a `double`
value is returned from a function declared `float`: correct rounding to 24
significand bits, ties to even (IEEE-754 binary32, normal range; overflow and
subnormals do not arise at the values this development evaluates it at). -/
def roundToFloat (q : ℚ) : ℚ :=
  if q = 0 then 0
  else
    (if q < 0 then -1 else 1) *
      (rne (|q| / 2 ^ (floorLog2 |q| - 23)) : ℚ) * 2 ^ (floorLog2 |q| - 23)

namespace BenchDodAvx2Double

/-- The main loop of `SumActiveBalancesAvx2` (src/bench-dod-avx2-double.cpp):
after `g` iterations the two `__m256d` accumulators hold the widened low and
high halves of the contribution vectors of groups `0, …, g-1` (group `k`
starting at index `8*k`). -/
def mainLoop (v : UsersView) (t : ℚ) : ℕ → Vec4 × Vec4
  | 0 => (Vec4.zero, Vec4.zero)
  | g + 1 =>
      ((mainLoop v t g).1.add (contribVec v t (8 * g)).low,
       (mainLoop v t g).2.add (contribVec v t (8 * g)).high)

/-- The horizontal reduction of the two `__m256d` accumulators:
`acc = acc0 + acc1`, split into 128-bit halves, added, then the two `double`
lanes added (`_mm_cvtsd_f64(sum) + _mm_cvtsd_f64(_mm_unpackhi_pd(sum, sum))`). -/
def hsum (a0 a1 : Vec4) : ℚ :=
  ((a0.add a1).l0 + (a0.add a1).l2) + ((a0.add a1).l1 + (a0.add a1).l3)

/-- `SumActiveBalancesAvx2` of src/bench-dod-avx2-double.cpp: groups of 8 via
the vector main loop, horizontal reduction, then the scalar tail from
`n8 = (count / 8) * 8` up to `count`, accumulated in double precision. -/
def SumActiveBalancesAvx2 (v : UsersView) (t : ℚ) : ℚ :=
  tailLoop v t ((v.Count / 8) * 8) (v.Count - (v.Count / 8) * 8)
    (hsum (mainLoop v t (v.Count / 8)).1 (mainLoop v t (v.Count / 8)).2)

/-- The capability dispatcher `SumActiveBalances` of
src/bench-dod-avx2-double.cpp.  `avx2Compiled` models `defined(__AVX2__)`,
`gccOrClang` models `COMPILER_CLANG || COMPILER_GCC`, `cpuAvx2` models
`__builtin_cpu_supports("avx2")`.  The function is declared `float`, so on the
AVX2 path the kernel's `double` result is narrowed to `float` at the return. -/
def SumActiveBalances (avx2Compiled gccOrClang cpuAvx2 : Bool) (v : UsersView)
    (t : ℚ) : ℚ :=
  if avx2Compiled then
    if gccOrClang ∧ cpuAvx2 then roundToFloat (SumActiveBalancesAvx2 v t)
    else SumActiveBalancesScalar v t
  else SumActiveBalancesScalar v t

end BenchDodAvx2Double

namespace BenchDodZnver2

/-- The main loop of `SumActiveBalancesAvx2` (src/bench-dod-znver2.cpp): after
`g` iterations the two `__m256` accumulators hold the contribution vectors of
the low and high 8-element sub-groups of groups `0, …, g-1` (group `k`
starting at index `16*k`).  The `_mm_prefetch` hints have no value-level
effect. -/
def mainLoop (v : UsersView) (t : ℚ) : ℕ → Vec8 × Vec8
  | 0 => (Vec8.zero, Vec8.zero)
  | g + 1 =>
      ((mainLoop v t g).1.add (contribVec v t (16 * g)),
       (mainLoop v t g).2.add (contribVec v t (16 * g + 8)))

/-- The horizontal reduction of the two `__m256` accumulators:
`acc = acc0 + acc1`, 128-bit halves added, then two `_mm_hadd_ps` steps and
`_mm_cvtss_f32` of lane 0. -/
def hsum (a0 a1 : Vec8) : ℚ :=
  (((a0.add a1).l0 + (a0.add a1).l4) + ((a0.add a1).l1 + (a0.add a1).l5)) +
    (((a0.add a1).l2 + (a0.add a1).l6) + ((a0.add a1).l3 + (a0.add a1).l7))

/-- `SumActiveBalancesAvx2` of src/bench-dod-znver2.cpp: groups of 16 via the
vector main loop, horizontal reduction, then the scalar tail from
`n16 = (count / 16) * 16` up to `count`, accumulated in single precision. -/
def SumActiveBalancesAvx2 (v : UsersView) (t : ℚ) : ℚ :=
  tailLoop v t ((v.Count / 16) * 16) (v.Count - (v.Count / 16) * 16)
    (hsum (mainLoop v t (v.Count / 16)).1 (mainLoop v t (v.Count / 16)).2)

/-- The capability dispatcher `SumActiveBalances` of src/bench-dod-znver2.cpp.
Both the kernel and the dispatcher are declared `float`, so the kernel's
result is returned unchanged. -/
def SumActiveBalances (avx2Compiled gccOrClang cpuAvx2 : Bool) (v : UsersView)
    (t : ℚ) : ℚ :=
  if avx2Compiled then
    if gccOrClang ∧ cpuAvx2 then SumActiveBalancesAvx2 v t
    else SumActiveBalancesScalar v t
  else SumActiveBalancesScalar v t

end BenchDodZnver2

namespace BenchRepository

/-- The record type `User` of src/bench-repository.cpp. -/
structure User where
  Id : ℤ
  Balance : ℚ
  Active : Bool

/-- `Qualifies(user, minimumBalance)`:
`user.Active && user.Balance >= minimumBalance`. -/
def Qualifies (user : User) (minimumBalance : ℚ) : Bool :=
  user.Active && decide (minimumBalance ≤ user.Balance)

/-- `SumActiveBalances(repository, minimumBalance)` of src/bench-repository.cpp:
`VectorUserRepository::ForEach` visits the stored records in order and the
closure adds `user.Balance` to the captured `float` accumulator whenever
`Qualifies(user, minimumBalance)` holds. -/
def SumActiveBalances (users : List User) (minimumBalance : ℚ) : ℚ :=
  users.foldl
    (fun accumulatedBalance user =>
      if Qualifies user minimumBalance then accumulatedBalance + user.Balance
      else accumulatedBalance)
    0

/-- `VectorUserRepository::FindById`: linear scan over the stored records,
returning the first whose `Id` equals `id`, or an empty optional. -/
def FindById : List User → ℤ → Option User
  | [], _ => none
  | user :: rest, id => if user.Id = id then some user else FindById rest id

end BenchRepository

/-!
## Proof-layer definitions and helper lemmas
-/

/-- The exact per-element contribution of index `i`: the scalar reducer's
`balanceValue * takeValue` term. -/
def elemContrib (v : UsersView) (t : ℚ) (i : ℕ) : ℚ :=
  v.bal i * takeValue t (v.bal i) (v.act i)

lemma laneTake_eq_takeValue (t b : ℚ) (a : ℕ) : laneTake t b a = takeValue t b a := by
  cases a with
  | zero => simp [laneTake, takeValue, activeLane]
  | succ n =>
      have h1 : (1 : ℚ) ≤ ((n + 1 : ℕ) : ℚ) := by
        exact_mod_cast Nat.succ_le_succ (Nat.zero_le n)
      simp [laneTake, takeValue, activeLane, min_eq_right h1]

lemma laneContrib_eq (v : UsersView) (t : ℚ) (i : ℕ) :
    laneContrib t (v.bal i) (v.act i) = elemContrib v t i := by
  simp [laneContrib, elemContrib, laneTake_eq_takeValue]

lemma elemContrib_ite (v : UsersView) (t : ℚ) (i : ℕ) :
    elemContrib v t i = if v.act i ≠ 0 ∧ t ≤ v.bal i then v.bal i else 0 := by
  unfold elemContrib takeValue
  split <;> simp

lemma scalarLoop_eq_sum (v : UsersView) (t : ℚ) (n : ℕ) :
    scalarLoop v t n = ∑ i ∈ Finset.range n, elemContrib v t i := by
  induction n with
  | zero => simp [scalarLoop]
  | succ n ih => simp [scalarLoop, Finset.sum_range_succ, ih, elemContrib]

lemma scalar_eq_sum (v : UsersView) (t : ℚ) :
    SumActiveBalancesScalar v t = ∑ i ∈ Finset.range v.Count, elemContrib v t i :=
  scalarLoop_eq_sum v t v.Count

lemma tailLoop_eq_sum (v : UsersView) (t : ℚ) :
    ∀ (r i : ℕ) (acc : ℚ),
      tailLoop v t i r acc = acc + ∑ j ∈ Finset.range r, elemContrib v t (i + j) := by
  intro r
  induction r with
  | zero => intro i acc; simp [tailLoop]
  | succ r ih =>
      intro i acc
      rw [tailLoop, ih, Finset.sum_range_succ']
      have hidx : ∀ j : ℕ, i + 1 + j = i + (j + 1) := by intro j; omega
      simp only [hidx, Nat.add_zero]
      rw [elemContrib_ite]
      split <;> ring

lemma sum_range_eight (f : ℕ → ℚ) :
    ∑ j ∈ Finset.range 8, f j = f 0 + f 1 + f 2 + f 3 + f 4 + f 5 + f 6 + f 7 := by
  rw [← Fin.sum_univ_eq_sum_range, Fin.sum_univ_eight]
  rfl

lemma sum_range_sixteen (f : ℕ → ℚ) :
    ∑ j ∈ Finset.range 16, f j =
      f 0 + f 1 + f 2 + f 3 + f 4 + f 5 + f 6 + f 7 +
        (f 8 + f 9 + f 10 + f 11 + f 12 + f 13 + f 14 + f 15) := by
  rw [show (16 : ℕ) = 8 + 8 from rfl, Finset.sum_range_add, sum_range_eight,
    sum_range_eight (fun j => f (8 + j))]

lemma sum_range_split (f : ℕ → ℚ) (n m : ℕ) (h : m ≤ n) :
    (∑ i ∈ Finset.range m, f i) + ∑ j ∈ Finset.range (n - m), f (m + j) =
      ∑ i ∈ Finset.range n, f i := by
  rw [← Finset.sum_range_add, Nat.add_sub_cancel' h]

lemma wideHsum_add (a b c d : Vec4) :
    BenchDodAvx2Double.hsum (a.add c) (b.add d) =
      BenchDodAvx2Double.hsum a b + BenchDodAvx2Double.hsum c d := by
  simp only [BenchDodAvx2Double.hsum, Vec4.add]
  ring

lemma wideHsum_low_high (x : Vec8) :
    BenchDodAvx2Double.hsum x.low x.high =
      x.l0 + x.l1 + x.l2 + x.l3 + x.l4 + x.l5 + x.l6 + x.l7 := by
  simp only [BenchDodAvx2Double.hsum, Vec4.add, Vec8.low, Vec8.high]
  ring

lemma wide_mainLoop_hsum (v : UsersView) (t : ℚ) (g : ℕ) :
    BenchDodAvx2Double.hsum (BenchDodAvx2Double.mainLoop v t g).1
      (BenchDodAvx2Double.mainLoop v t g).2 =
      ∑ i ∈ Finset.range (8 * g), elemContrib v t i := by
  induction g with
  | zero =>
      simp [BenchDodAvx2Double.mainLoop, BenchDodAvx2Double.hsum, Vec4.zero, Vec4.add]
  | succ g ih =>
      rw [show 8 * (g + 1) = 8 * g + 8 by ring,
        Finset.sum_range_add (fun i => elemContrib v t i) (8 * g) 8,
        sum_range_eight (fun j => elemContrib v t (8 * g + j))]
      rw [show (BenchDodAvx2Double.mainLoop v t (g + 1)).1 =
            (BenchDodAvx2Double.mainLoop v t g).1.add (contribVec v t (8 * g)).low from rfl,
        show (BenchDodAvx2Double.mainLoop v t (g + 1)).2 =
            (BenchDodAvx2Double.mainLoop v t g).2.add (contribVec v t (8 * g)).high from rfl,
        wideHsum_add, ih, wideHsum_low_high]
      simp only [contribVec, laneContrib_eq, Nat.add_zero]

lemma znHsum_add (a b c d : Vec8) :
    BenchDodZnver2.hsum (a.add c) (b.add d) =
      BenchDodZnver2.hsum a b + BenchDodZnver2.hsum c d := by
  simp only [BenchDodZnver2.hsum, Vec8.add]
  ring

lemma znHsum_pair (x y : Vec8) :
    BenchDodZnver2.hsum x y =
      x.l0 + x.l1 + x.l2 + x.l3 + x.l4 + x.l5 + x.l6 + x.l7 +
        (y.l0 + y.l1 + y.l2 + y.l3 + y.l4 + y.l5 + y.l6 + y.l7) := by
  simp only [BenchDodZnver2.hsum, Vec8.add]
  ring

lemma zn_mainLoop_hsum (v : UsersView) (t : ℚ) (g : ℕ) :
    BenchDodZnver2.hsum (BenchDodZnver2.mainLoop v t g).1
      (BenchDodZnver2.mainLoop v t g).2 =
      ∑ i ∈ Finset.range (16 * g), elemContrib v t i := by
  induction g with
  | zero =>
      simp [BenchDodZnver2.mainLoop, BenchDodZnver2.hsum, Vec8.zero, Vec8.add]
  | succ g ih =>
      rw [show 16 * (g + 1) = 16 * g + 16 by ring,
        Finset.sum_range_add (fun i => elemContrib v t i) (16 * g) 16,
        sum_range_sixteen (fun j => elemContrib v t (16 * g + j))]
      rw [show (BenchDodZnver2.mainLoop v t (g + 1)).1 =
            (BenchDodZnver2.mainLoop v t g).1.add (contribVec v t (16 * g)) from rfl,
        show (BenchDodZnver2.mainLoop v t (g + 1)).2 =
            (BenchDodZnver2.mainLoop v t g).2.add (contribVec v t (16 * g + 8)) from rfl,
        znHsum_add, ih, znHsum_pair]
      simp only [contribVec, laneContrib_eq, Nat.add_zero, Nat.add_assoc]

lemma wide_kernel_eq_sum (v : UsersView) (t : ℚ) :
    BenchDodAvx2Double.SumActiveBalancesAvx2 v t =
      ∑ i ∈ Finset.range v.Count, elemContrib v t i := by
  unfold BenchDodAvx2Double.SumActiveBalancesAvx2
  rw [tailLoop_eq_sum, wide_mainLoop_hsum, show 8 * (v.Count / 8) = v.Count / 8 * 8 by ring]
  exact sum_range_split (elemContrib v t) v.Count (v.Count / 8 * 8) (Nat.div_mul_le_self _ _)

lemma zn_kernel_eq_sum (v : UsersView) (t : ℚ) :
    BenchDodZnver2.SumActiveBalancesAvx2 v t =
      ∑ i ∈ Finset.range v.Count, elemContrib v t i := by
  unfold BenchDodZnver2.SumActiveBalancesAvx2
  rw [tailLoop_eq_sum, zn_mainLoop_hsum, show 16 * (v.Count / 16) = v.Count / 16 * 16 by ring]
  exact sum_range_split (elemContrib v t) v.Count (v.Count / 16 * 16) (Nat.div_mul_le_self _ _)

/-- Per-record contribution on the repository path. -/
def qualContrib (t : ℚ) (u : BenchRepository.User) : ℚ :=
  if BenchRepository.Qualifies u t then u.Balance else 0

lemma repo_foldl (t : ℚ) :
    ∀ (us : List BenchRepository.User) (acc : ℚ),
      us.foldl
        (fun accumulatedBalance user =>
          if BenchRepository.Qualifies user t then accumulatedBalance + user.Balance
          else accumulatedBalance)
        acc = acc + (us.map (qualContrib t)).sum := by
  intro us
  induction us with
  | nil => intro acc; simp
  | cons u rest ih =>
      intro acc
      simp only [List.foldl_cons, List.map_cons, List.sum_cons]
      rw [ih]
      cases hq : BenchRepository.Qualifies u t <;> simp [qualContrib, hq] <;> ring

lemma repo_eq_sum (us : List BenchRepository.User) (t : ℚ) :
    BenchRepository.SumActiveBalances us t = (us.map (qualContrib t)).sum := by
  unfold BenchRepository.SumActiveBalances
  rw [repo_foldl]
  ring

lemma list_map_sum_eq_range {α : Type} (g : α → ℚ) (d : α) (us : List α) :
    (us.map g).sum = ∑ i ∈ Finset.range us.length, g (us.getD i d) := by
  induction us with
  | nil => simp
  | cons u rest ih =>
      simp only [List.map_cons, List.sum_cons, List.length_cons]
      rw [Finset.sum_range_succ']
      simp only [List.getD_cons_succ, List.getD_cons_zero]
      rw [ih]
      ring

lemma zip_getD (bs : List ℚ) (as : List ℕ) (i : ℕ) (hb : i < bs.length)
    (ha : i < as.length) :
    (bs.zip as).getD i (0, 0) = (bs.getD i 0, as.getD i 0) := by
  have hz : i < (bs.zip as).length := by
    rw [List.length_zip]
    omega
  rw [List.getD_eq_getElem _ _ hz, List.getD_eq_getElem _ _ hb,
    List.getD_eq_getElem _ _ ha, List.getElem_zip]

/-- Per-pair contribution, for permutation reasoning over the zipped
balance/activity lists. -/
def pairContrib (t : ℚ) (p : ℚ × ℕ) : ℚ :=
  if p.2 ≠ 0 ∧ t ≤ p.1 then p.1 else 0

lemma scalar_eq_zip_sum (v : UsersView) (t : ℚ) (hb : v.Balances.length = v.Count)
    (ha : v.Active.length = v.Count) :
    SumActiveBalancesScalar v t = ((v.Balances.zip v.Active).map (pairContrib t)).sum := by
  rw [scalar_eq_sum, list_map_sum_eq_range (pairContrib t) (0, 0)]
  have hlen : (v.Balances.zip v.Active).length = v.Count := by
    rw [List.length_zip]
    omega
  rw [hlen]
  refine Finset.sum_congr rfl ?_
  intro i hi
  rw [Finset.mem_range] at hi
  rw [zip_getD _ _ i (by omega) (by omega), elemContrib_ite]
  rfl

/-!
## Concrete views used by witnesses (the first is the worked example of the
spec: balances `[100, 300, 250, 999]`, active `[1, 1, 0, 1]`, threshold 250).
-/

def exView : UsersView :=
  ⟨[0, 1, 2, 3], [100, 300, 250, 999], [1, 1, 0, 1], 4⟩

def exViewBytes : UsersView :=
  ⟨[0, 1, 2, 3], [100, 300, 250, 999], [2, 7, 0, 255], 4⟩

/-- Claim C1: for every data view and every threshold, both AVX2 reducers
qualify exactly the elements the scalar reducer qualifies (the clamped lane
predicate equals the scalar take factor), and — arithmetic being exact in this
embedding, where the claim asserts equality in exact arithmetic and a rounding
tolerance that is met with difference zero — the wide-accumulation kernel, the
same-precision kernel, and the scalar reducer return equal results. -/
theorem claim1_vector_reducers_match_scalar (v : UsersView) (t : ℚ) :
    BenchDodAvx2Double.SumActiveBalancesAvx2 v t = SumActiveBalancesScalar v t ∧
    BenchDodZnver2.SumActiveBalancesAvx2 v t = SumActiveBalancesScalar v t ∧
    ∀ b : ℚ, ∀ a : ℕ, laneTake t b a = takeValue t b a := by
  refine ⟨?_, ?_, fun b a => laneTake_eq_takeValue t b a⟩
  · rw [wide_kernel_eq_sum, scalar_eq_sum]
  · rw [zn_kernel_eq_sum, scalar_eq_sum]

/-- Claim C3: whenever the vector path is unavailable — `__AVX2__` not
compiled in, or the compiler gate false, or the run-time CPU query negative —
both dispatchers return the scalar reducer's value itself (the scalar result
is a `float` returned through a `float` return type, unchanged). -/
theorem claim3_dispatcher_scalar_fallback_exact
    (avx2Compiled gccOrClang cpuAvx2 : Bool) (v : UsersView) (t : ℚ)
    (h : avx2Compiled = false ∨ gccOrClang = false ∨ cpuAvx2 = false) :
    BenchDodAvx2Double.SumActiveBalances avx2Compiled gccOrClang cpuAvx2 v t =
      SumActiveBalancesScalar v t ∧
    BenchDodZnver2.SumActiveBalances avx2Compiled gccOrClang cpuAvx2 v t =
      SumActiveBalancesScalar v t := by
  unfold BenchDodAvx2Double.SumActiveBalances BenchDodZnver2.SumActiveBalances
  rcases h with h | h | h <;> subst h <;> simp

theorem claim3_witness :
    BenchDodAvx2Double.SumActiveBalances false true true exView 250 =
      SumActiveBalancesScalar exView 250 ∧
    BenchDodZnver2.SumActiveBalances false true true exView 250 =
      SumActiveBalancesScalar exView 250 :=
  claim3_dispatcher_scalar_fallback_exact false true true exView 250 (Or.inl rfl)

/-- Claim C4: every reducer treats any nonzero activity byte exactly like the
byte 1 — replacing the activity array by one that is zero at the same indices
leaves every reducer's result unchanged — and the element contribution is the
balance precisely when the byte is nonzero and the balance meets the
threshold. -/
theorem claim4_nonzero_activity_byte_saturates
    (v w : UsersView) (t : ℚ)
    (hc : w.Count = v.Count) (hb : w.Balances = v.Balances)
    (ha : ∀ i, i < v.Count → (w.act i = 0 ↔ v.act i = 0)) :
    SumActiveBalancesScalar w t = SumActiveBalancesScalar v t ∧
    BenchDodAvx2Double.SumActiveBalancesAvx2 w t =
      BenchDodAvx2Double.SumActiveBalancesAvx2 v t ∧
    BenchDodZnver2.SumActiveBalancesAvx2 w t =
      BenchDodZnver2.SumActiveBalancesAvx2 v t ∧
    ∀ i, i < v.Count →
      elemContrib v t i = if v.act i ≠ 0 ∧ t ≤ v.bal i then v.bal i else 0 := by
  have hkey : ∀ i, i < v.Count → elemContrib w t i = elemContrib v t i := by
    intro i hi
    have hbal : w.bal i = v.bal i := by rw [UsersView.bal, UsersView.bal, hb]
    rw [elemContrib_ite, elemContrib_ite, hbal]
    by_cases h0 : v.act i = 0
    · simp [h0, (ha i hi).mpr h0]
    · have hw0 : w.act i ≠ 0 := fun hh => h0 ((ha i hi).mp hh)
      simp [h0, hw0]
  have hsum : ∀ n, n = v.Count →
      (∑ i ∈ Finset.range n, elemContrib w t i) =
        ∑ i ∈ Finset.range n, elemContrib v t i := by
    intro n hn
    exact Finset.sum_congr rfl fun i hi => hkey i (by rw [← hn]; exact Finset.mem_range.mp hi)
  refine ⟨?_, ?_, ?_, fun i _ => elemContrib_ite v t i⟩
  · rw [scalar_eq_sum, scalar_eq_sum, hc, hsum v.Count rfl]
  · rw [wide_kernel_eq_sum, wide_kernel_eq_sum, hc, hsum v.Count rfl]
  · rw [zn_kernel_eq_sum, zn_kernel_eq_sum, hc, hsum v.Count rfl]

theorem claim4_witness :
    SumActiveBalancesScalar exViewBytes 250 = SumActiveBalancesScalar exView 250 ∧
    BenchDodAvx2Double.SumActiveBalancesAvx2 exViewBytes 250 =
      BenchDodAvx2Double.SumActiveBalancesAvx2 exView 250 ∧
    BenchDodZnver2.SumActiveBalancesAvx2 exViewBytes 250 =
      BenchDodZnver2.SumActiveBalancesAvx2 exView 250 ∧
    ∀ i, i < exView.Count →
      elemContrib exView 250 i =
        if exView.act i ≠ 0 ∧ 250 ≤ exView.bal i then exView.bal i else 0 :=
  claim4_nonzero_activity_byte_saturates exView exViewBytes 250 rfl rfl (by decide)

/-- Claim C5: when the count is not a multiple of the kernel's group width
(8 for the wide-accumulation kernel, 16 per iteration for the same-precision
kernel), the kernel's result is the scalar tail loop run over exactly the last
`count mod width` elements starting from the last full group, and overall
every index below the count contributes exactly once (the kernel equals the
sum of the per-element contributions over `[0, count)`), hence matches the
scalar reducer; tail accumulation is the `double` (respectively `float`)
accumulator, exact in this embedding. -/
theorem claim5_tail_elements_exactly_once (v : UsersView) (t : ℚ) :
    (v.Count % 8 ≠ 0 →
      BenchDodAvx2Double.SumActiveBalancesAvx2 v t =
        tailLoop v t (v.Count / 8 * 8) (v.Count % 8)
          (BenchDodAvx2Double.hsum (BenchDodAvx2Double.mainLoop v t (v.Count / 8)).1
            (BenchDodAvx2Double.mainLoop v t (v.Count / 8)).2) ∧
      BenchDodAvx2Double.SumActiveBalancesAvx2 v t =
        ∑ i ∈ Finset.range v.Count, elemContrib v t i) ∧
    (v.Count % 16 ≠ 0 →
      BenchDodZnver2.SumActiveBalancesAvx2 v t =
        tailLoop v t (v.Count / 16 * 16) (v.Count % 16)
          (BenchDodZnver2.hsum (BenchDodZnver2.mainLoop v t (v.Count / 16)).1
            (BenchDodZnver2.mainLoop v t (v.Count / 16)).2) ∧
      BenchDodZnver2.SumActiveBalancesAvx2 v t =
        ∑ i ∈ Finset.range v.Count, elemContrib v t i) := by
  refine ⟨fun _ => ⟨?_, wide_kernel_eq_sum v t⟩, fun _ => ⟨?_, zn_kernel_eq_sum v t⟩⟩
  · unfold BenchDodAvx2Double.SumActiveBalancesAvx2
    rw [show v.Count - v.Count / 8 * 8 = v.Count % 8 by omega]
  · unfold BenchDodZnver2.SumActiveBalancesAvx2
    rw [show v.Count - v.Count / 16 * 16 = v.Count % 16 by omega]

def tailView : UsersView :=
  ⟨[0, 1, 2], [300, 100, 400], [1, 1, 1], 3⟩

theorem claim5_witness :
    (BenchDodAvx2Double.SumActiveBalancesAvx2 tailView 250 =
        tailLoop tailView 250 (tailView.Count / 8 * 8) (tailView.Count % 8)
          (BenchDodAvx2Double.hsum
            (BenchDodAvx2Double.mainLoop tailView 250 (tailView.Count / 8)).1
            (BenchDodAvx2Double.mainLoop tailView 250 (tailView.Count / 8)).2) ∧
      BenchDodAvx2Double.SumActiveBalancesAvx2 tailView 250 =
        ∑ i ∈ Finset.range tailView.Count, elemContrib tailView 250 i) ∧
    (BenchDodZnver2.SumActiveBalancesAvx2 tailView 250 =
        tailLoop tailView 250 (tailView.Count / 16 * 16) (tailView.Count % 16)
          (BenchDodZnver2.hsum
            (BenchDodZnver2.mainLoop tailView 250 (tailView.Count / 16)).1
            (BenchDodZnver2.mainLoop tailView 250 (tailView.Count / 16)).2) ∧
      BenchDodZnver2.SumActiveBalancesAvx2 tailView 250 =
        ∑ i ∈ Finset.range tailView.Count, elemContrib tailView 250 i) :=
  ⟨(claim5_tail_elements_exactly_once tailView 250).1 (by decide),
   (claim5_tail_elements_exactly_once tailView 250).2 (by decide)⟩

lemma roundToFloat_zero : roundToFloat 0 = 0 := by
  simp [roundToFloat]

/-- Claim C8: each reducer and each dispatcher returns exactly 0 when the
count is 0, when the threshold strictly exceeds every balance, and when every
activity flag is 0. -/
theorem claim8_zero_cases (v : UsersView) (t : ℚ) (avx2Compiled gccOrClang cpuAvx2 : Bool) :
    (v.Count = 0 →
      SumActiveBalancesScalar v t = 0 ∧
      BenchDodAvx2Double.SumActiveBalancesAvx2 v t = 0 ∧
      BenchDodZnver2.SumActiveBalancesAvx2 v t = 0 ∧
      BenchDodAvx2Double.SumActiveBalances avx2Compiled gccOrClang cpuAvx2 v t = 0 ∧
      BenchDodZnver2.SumActiveBalances avx2Compiled gccOrClang cpuAvx2 v t = 0) ∧
    ((∀ i, i < v.Count → v.bal i < t) →
      SumActiveBalancesScalar v t = 0 ∧
      BenchDodAvx2Double.SumActiveBalancesAvx2 v t = 0 ∧
      BenchDodZnver2.SumActiveBalancesAvx2 v t = 0 ∧
      BenchDodAvx2Double.SumActiveBalances avx2Compiled gccOrClang cpuAvx2 v t = 0 ∧
      BenchDodZnver2.SumActiveBalances avx2Compiled gccOrClang cpuAvx2 v t = 0) ∧
    ((∀ i, i < v.Count → v.act i = 0) →
      SumActiveBalancesScalar v t = 0 ∧
      BenchDodAvx2Double.SumActiveBalancesAvx2 v t = 0 ∧
      BenchDodZnver2.SumActiveBalancesAvx2 v t = 0 ∧
      BenchDodAvx2Double.SumActiveBalances avx2Compiled gccOrClang cpuAvx2 v t = 0 ∧
      BenchDodZnver2.SumActiveBalances avx2Compiled gccOrClang cpuAvx2 v t = 0) := by
  have key : (∀ i, i < v.Count → elemContrib v t i = 0) →
      SumActiveBalancesScalar v t = 0 ∧
      BenchDodAvx2Double.SumActiveBalancesAvx2 v t = 0 ∧
      BenchDodZnver2.SumActiveBalancesAvx2 v t = 0 ∧
      BenchDodAvx2Double.SumActiveBalances avx2Compiled gccOrClang cpuAvx2 v t = 0 ∧
      BenchDodZnver2.SumActiveBalances avx2Compiled gccOrClang cpuAvx2 v t = 0 := by
    intro hz
    have hscalar : SumActiveBalancesScalar v t = 0 := by
      rw [scalar_eq_sum]
      exact Finset.sum_eq_zero fun i hi => hz i (Finset.mem_range.mp hi)
    have hwide : BenchDodAvx2Double.SumActiveBalancesAvx2 v t = 0 := by
      rw [wide_kernel_eq_sum]
      exact Finset.sum_eq_zero fun i hi => hz i (Finset.mem_range.mp hi)
    have hzn : BenchDodZnver2.SumActiveBalancesAvx2 v t = 0 := by
      rw [zn_kernel_eq_sum]
      exact Finset.sum_eq_zero fun i hi => hz i (Finset.mem_range.mp hi)
    refine ⟨hscalar, hwide, hzn, ?_, ?_⟩
    · unfold BenchDodAvx2Double.SumActiveBalances
      cases avx2Compiled <;> cases gccOrClang <;> cases cpuAvx2 <;>
        simp [hscalar, hwide, roundToFloat_zero]
    · unfold BenchDodZnver2.SumActiveBalances
      cases avx2Compiled <;> cases gccOrClang <;> cases cpuAvx2 <;>
        simp [hscalar, hzn]
  refine ⟨fun h0 => key ?_, fun hlt => key ?_, fun hact => key ?_⟩
  · intro i hi
    omega
  · intro i hi
    rw [elemContrib_ite, if_neg]
    rintro ⟨-, hle⟩
    exact absurd hle (not_le.mpr (hlt i hi))
  · intro i hi
    rw [elemContrib_ite, if_neg]
    rintro ⟨hne, -⟩
    exact hne (hact i hi)

def emptyView : UsersView := ⟨[], [], [], 0⟩

theorem claim8_witness :
    SumActiveBalancesScalar emptyView 250 = 0 ∧
    BenchDodAvx2Double.SumActiveBalancesAvx2 emptyView 250 = 0 ∧
    BenchDodZnver2.SumActiveBalancesAvx2 emptyView 250 = 0 ∧
    BenchDodAvx2Double.SumActiveBalances true true true emptyView 250 = 0 ∧
    BenchDodZnver2.SumActiveBalances true true true emptyView 250 = 0 :=
  (claim8_zero_cases emptyView 250 true true true).1 rfl

/-- Claim C10: the balances of inactive elements never influence any reducer's
output — two views with the same count, identical activity arrays, and equal
balances at every active index produce identical results from the scalar and
both AVX2 reducers.  (The claim's finiteness proviso is inherent to this
embedding: every modelled balance is a finite rational, as is every value a
C++ `float` array can hold other than NaN and infinities.) -/
theorem claim10_inactive_balances_never_influence
    (v w : UsersView) (t : ℚ)
    (hc : w.Count = v.Count) (ha : w.Active = v.Active)
    (hb : ∀ i, i < v.Count → v.act i ≠ 0 → w.bal i = v.bal i) :
    SumActiveBalancesScalar w t = SumActiveBalancesScalar v t ∧
    BenchDodAvx2Double.SumActiveBalancesAvx2 w t =
      BenchDodAvx2Double.SumActiveBalancesAvx2 v t ∧
    BenchDodZnver2.SumActiveBalancesAvx2 w t =
      BenchDodZnver2.SumActiveBalancesAvx2 v t := by
  have hact : ∀ i, w.act i = v.act i := by
    intro i
    rw [UsersView.act, UsersView.act, ha]
  have hkey : ∀ i, i < v.Count → elemContrib w t i = elemContrib v t i := by
    intro i hi
    rw [elemContrib_ite, elemContrib_ite, hact]
    by_cases h0 : v.act i = 0
    · simp [h0]
    · rw [hb i hi h0]
  have hsum : (∑ i ∈ Finset.range v.Count, elemContrib w t i) =
      ∑ i ∈ Finset.range v.Count, elemContrib v t i :=
    Finset.sum_congr rfl fun i hi => hkey i (Finset.mem_range.mp hi)
  refine ⟨?_, ?_, ?_⟩
  · rw [scalar_eq_sum, scalar_eq_sum, hc, hsum]
  · rw [wide_kernel_eq_sum, wide_kernel_eq_sum, hc, hsum]
  · rw [zn_kernel_eq_sum, zn_kernel_eq_sum, hc, hsum]

def exViewInactiveChanged : UsersView :=
  ⟨[0, 1, 2, 3], [100, 300, -5, 999], [1, 1, 0, 1], 4⟩

theorem claim10_witness :
    SumActiveBalancesScalar exViewInactiveChanged 250 =
      SumActiveBalancesScalar exView 250 ∧
    BenchDodAvx2Double.SumActiveBalancesAvx2 exViewInactiveChanged 250 =
      BenchDodAvx2Double.SumActiveBalancesAvx2 exView 250 ∧
    BenchDodZnver2.SumActiveBalancesAvx2 exViewInactiveChanged 250 =
      BenchDodZnver2.SumActiveBalancesAvx2 exView 250 :=
  claim10_inactive_balances_never_influence exView exViewInactiveChanged 250 rfl rfl
    (by decide)

/-- The view exhibiting the dispatcher's precision narrowing: both elements
are active, the balances are the `float`-representable values `16777216` and
`0.5`, and their exact (double) sum `16777216.5` is not representable in
single precision. -/
def narrowView : UsersView :=
  ⟨[0, 1], [16777216, 1 / 2], [1, 1], 2⟩

lemma narrow_kernel_value :
    BenchDodAvx2Double.SumActiveBalancesAvx2 narrowView 0 = 33554433 / 2 := by
  norm_num [BenchDodAvx2Double.SumActiveBalancesAvx2, BenchDodAvx2Double.mainLoop,
    BenchDodAvx2Double.hsum, Vec4.zero, Vec4.add, tailLoop, narrowView,
    UsersView.bal, UsersView.act]

lemma roundToFloat_narrow : roundToFloat (33554433 / 2) = 16777216 := by
  have habs : |(33554433 / 2 : ℚ)| = 33554433 / 2 := abs_of_pos (by norm_num)
  have hfl : ⌊(33554433 / 2 : ℚ)⌋ = 16777216 := by
    rw [Int.floor_eq_iff]
    constructor <;> norm_num
  have hlog : floorLog2 (33554433 / 2 : ℚ) = 24 := by
    rw [floorLog2, if_pos (by norm_num : (1 : ℚ) ≤ 33554433 / 2), hfl]
    decide
  have hfl2 : ⌊(33554433 / 4 : ℚ)⌋ = 8388608 := by
    rw [Int.floor_eq_iff]
    constructor <;> norm_num
  have hrne : rne (33554433 / 4) = 8388608 := by
    rw [rne, hfl2, if_pos (by norm_num)]
  rw [roundToFloat, if_neg (by norm_num), if_neg (by norm_num), habs, hlog]
  rw [show (33554433 / 2 : ℚ) / 2 ^ ((24 : ℤ) - 23) = 33554433 / 4 by norm_num]
  rw [hrne]
  norm_num

/-- Claim C2, counterexample: with the AVX2 path compiled in and the CPU
reporting AVX2 support, the wide-accumulation binary's dispatcher does NOT
return the AVX2 kernel's double-precision result unchanged — its declared
`float` return type narrows it.  On `narrowView` with threshold 0 the kernel
returns `16777216.5` while the dispatcher returns `16777216`. -/
theorem claim2_counterexample :
    BenchDodAvx2Double.SumActiveBalances true true true narrowView 0 ≠
      BenchDodAvx2Double.SumActiveBalancesAvx2 narrowView 0 := by
  have hd : BenchDodAvx2Double.SumActiveBalances true true true narrowView 0 =
      roundToFloat (BenchDodAvx2Double.SumActiveBalancesAvx2 narrowView 0) := by
    simp [BenchDodAvx2Double.SumActiveBalances]
  rw [hd, narrow_kernel_value, roundToFloat_narrow]
  norm_num

/-- Claim C2, amended: the dispatcher returns the result of whichever kernel
it selects, at the dispatcher's own declared single precision — in the
wide-accumulation binary the AVX2 kernel's double result is narrowed to
`float` at the dispatcher's return (so callers always receive `float`), while
in the same-precision binary the kernel's `float` result is returned
unchanged. -/
theorem claim2_amended_dispatcher_narrows_to_float (v : UsersView) (t : ℚ) :
    BenchDodAvx2Double.SumActiveBalances true true true v t =
      roundToFloat (BenchDodAvx2Double.SumActiveBalancesAvx2 v t) ∧
    BenchDodZnver2.SumActiveBalances true true true v t =
      BenchDodZnver2.SumActiveBalancesAvx2 v t := by
  constructor
  · simp [BenchDodAvx2Double.SumActiveBalances]
  · simp [BenchDodZnver2.SumActiveBalances]

/-- Claim C6: on a record sequence and the data view holding the same values
in parallel arrays (booleans mapped to nonzero/zero activity bytes), the
repository path — `ForEach` with the `Qualifies` closure — returns exactly the
same value as the scalar flat-array reducer, even though the latter adds a
`balance * 0` product for every non-qualifying element. -/
theorem claim6_repository_path_equals_scalar
    (us : List BenchRepository.User) (v : UsersView) (t : ℚ)
    (hc : v.Count = us.length)
    (hb : v.Balances = us.map BenchRepository.User.Balance)
    (ha : ∀ i, (h : i < us.length) → (v.act i ≠ 0 ↔ (us.get ⟨i, h⟩).Active = true)) :
    BenchRepository.SumActiveBalances us t = SumActiveBalancesScalar v t := by
  rw [repo_eq_sum, scalar_eq_sum, hc,
    list_map_sum_eq_range (qualContrib t) ⟨0, 0, false⟩ us]
  refine Finset.sum_congr rfl ?_
  intro i hi
  rw [Finset.mem_range] at hi
  have hget : us.getD i ⟨0, 0, false⟩ = us.get ⟨i, hi⟩ := by
    rw [List.getD_eq_getElem _ _ hi, List.get_eq_getElem]
  have hbal : v.bal i = (us.get ⟨i, hi⟩).Balance := by
    rw [UsersView.bal, hb, List.getD_eq_getElem _ _ (by simpa using hi), List.getElem_map,
      List.get_eq_getElem]
  rw [hget, elemContrib_ite, hbal]
  by_cases hA : (us.get ⟨i, hi⟩).Active = true <;>
    by_cases hle : t ≤ (us.get ⟨i, hi⟩).Balance <;>
      simp [qualContrib, BenchRepository.Qualifies, hA, hle, ha i hi]

def exUsers : List BenchRepository.User :=
  [⟨0, 100, true⟩, ⟨1, 300, true⟩, ⟨2, 250, false⟩, ⟨3, 999, true⟩]

theorem claim6_witness :
    BenchRepository.SumActiveBalances exUsers 250 = SumActiveBalancesScalar exView 250 :=
  claim6_repository_path_equals_scalar exUsers exView 250 rfl rfl (by decide)

/-- Claim C7: applying one and the same permutation to the identifiers,
balances, and activity arrays (stated here as a permutation of the zipped
triples) leaves the result of every reducer unchanged — exactly so, since
arithmetic is exact in this embedding and the multiset of per-element
contributions is preserved. -/
theorem claim7_permutation_invariance
    (v w : UsersView) (t : ℚ)
    (hvb : v.Balances.length = v.Count) (hva : v.Active.length = v.Count)
    (hvi : v.Ids.length = v.Count)
    (hwb : w.Balances.length = w.Count) (hwa : w.Active.length = w.Count)
    (hwi : w.Ids.length = w.Count)
    (hperm : (v.Ids.zip (v.Balances.zip v.Active)).Perm
      (w.Ids.zip (w.Balances.zip w.Active))) :
    SumActiveBalancesScalar v t = SumActiveBalancesScalar w t ∧
    BenchDodAvx2Double.SumActiveBalancesAvx2 v t =
      BenchDodAvx2Double.SumActiveBalancesAvx2 w t ∧
    BenchDodZnver2.SumActiveBalancesAvx2 v t =
      BenchDodZnver2.SumActiveBalancesAvx2 w t := by
  have hpz : (v.Balances.zip v.Active).Perm (w.Balances.zip w.Active) := by
    have h1 := hperm.map Prod.snd
    rwa [List.map_snd_zip _ _ (by rw [List.length_zip]; omega),
      List.map_snd_zip _ _ (by rw [List.length_zip]; omega)] at h1
  have hs : SumActiveBalancesScalar v t = SumActiveBalancesScalar w t := by
    rw [scalar_eq_zip_sum v t hvb hva, scalar_eq_zip_sum w t hwb hwa]
    exact List.Perm.sum_eq (hpz.map (pairContrib t))
  refine ⟨hs, ?_, ?_⟩
  · rw [wide_kernel_eq_sum, wide_kernel_eq_sum, ← scalar_eq_sum, ← scalar_eq_sum]
    exact hs
  · rw [zn_kernel_eq_sum, zn_kernel_eq_sum, ← scalar_eq_sum, ← scalar_eq_sum]
    exact hs

def permView : UsersView :=
  ⟨[1, 2, 3, 0], [300, 250, 999, 100], [1, 0, 1, 1], 4⟩

theorem claim7_witness :
    SumActiveBalancesScalar exView 250 = SumActiveBalancesScalar permView 250 ∧
    BenchDodAvx2Double.SumActiveBalancesAvx2 exView 250 =
      BenchDodAvx2Double.SumActiveBalancesAvx2 permView 250 ∧
    BenchDodZnver2.SumActiveBalancesAvx2 exView 250 =
      BenchDodZnver2.SumActiveBalancesAvx2 permView 250 :=
  claim7_permutation_invariance exView permView 250 rfl rfl rfl rfl rfl rfl (by decide)

/-- Claim C9: `VectorUserRepository::FindById` returns the first record in
storage order whose `Id` equals the requested id — the returned record has
that id, occurs at some position, and every earlier position holds a record
with a different id — and returns an empty optional exactly when no stored
record has the id. -/
theorem claim9_findById_first_match (us : List BenchRepository.User) (id : ℤ) :
    (BenchRepository.FindById us id = none ↔ ∀ u ∈ us, u.Id ≠ id) ∧
    ∀ u, BenchRepository.FindById us id = some u →
      u.Id = id ∧
        ∃ k : ℕ, us[k]? = some u ∧
          ∀ j : ℕ, j < k → ∀ u' : BenchRepository.User, us[j]? = some u' → u'.Id ≠ id := by
  induction us with
  | nil =>
      refine ⟨by simp [BenchRepository.FindById], ?_⟩
      intro u hu
      simp [BenchRepository.FindById] at hu
  | cons a rest ih =>
      by_cases ha : a.Id = id
      · refine ⟨?_, ?_⟩
        · simp only [BenchRepository.FindById, if_pos ha]
          constructor
          · intro h
            simp at h
          · intro h
            exact absurd ha (h a (List.mem_cons_self a rest))
        · intro u hu
          simp only [BenchRepository.FindById, if_pos ha, Option.some.injEq] at hu
          subst hu
          refine ⟨ha, 0, by simp, ?_⟩
          intro j hj
          omega
      · have hres : BenchRepository.FindById (a :: rest) id =
            BenchRepository.FindById rest id := by
          simp [BenchRepository.FindById, ha]
        refine ⟨?_, ?_⟩
        · rw [hres, ih.1]
          constructor
          · intro h u hu
            rcases List.mem_cons.mp hu with rfl | hu'
            · exact ha
            · exact h u hu'
          · intro h u hu
            exact h u (List.mem_cons_of_mem a hu)
        · intro u hu
          rw [hres] at hu
          obtain ⟨hid, k, hk, hbefore⟩ := (ih.2) u hu
          refine ⟨hid, k + 1, by simpa using hk, ?_⟩
          intro j hj u' hj'
          cases j with
          | zero =>
              simp only [List.getElem?_cons_zero, Option.some.injEq] at hj'
              subst hj'
              exact ha
          | succ j =>
              refine hbefore j (by omega) u' ?_
              simpa using hj'

def repoUsers : List BenchRepository.User :=
  [⟨1, 10, true⟩, ⟨2, 20, false⟩, ⟨2, 30, true⟩]

theorem claim9_witness :
    (⟨2, 20, false⟩ : BenchRepository.User).Id = 2 ∧
      ∃ k : ℕ, repoUsers[k]? = some ⟨2, 20, false⟩ ∧
        ∀ j : ℕ, j < k → ∀ u' : BenchRepository.User, repoUsers[j]? = some u' → u'.Id ≠ 2 :=
  (claim9_findById_first_match repoUsers 2).2 ⟨2, 20, false⟩ (by rfl)
